import Mathlib

/-!
Shallow embedding of `formatter.go` from norganna/formatrus (the first, richer
variant in the file: the `Formatter` with `MessageAfter`, `CompactMessage`,
`ParagraphAll`, `ParagraphBlock` and `Ordering`).

Modelling conventions:
* Go strings are Lean `String`s.  Go `len` on a string is the UTF-8 byte count,
  modelled by `String.utf8ByteSize`; byte-wise lexicographic comparison of
  UTF-8 strings coincides with code-point lexicographic comparison (UTF-8 is
  order preserving), modelled by `strCmp` below.
* `entry.Data` (a Go `map[string]interface{}`) is an association list with
  unique keys.  Map iteration order is unspecified in Go; every quantity the
  formatter derives from the iteration (the key set, the running maximum of
  key lengths, the extracted `_order` slice) is order independent, and the
  key slice is sorted before use, so the list order is a faithful stand-in.
* Go map lookup of a missing key yields the zero value (`0` for `int`),
  modelled by `lookupD`; `pri[k] = i` assignment is modelled by `mapAssign`.
* A Go panic is modelled by `Option.none` propagating out of `format`:
  the only panic sites are the unchecked type assertion `v.([]string)` on the
  `_order` value and `bytes.Repeat` with a negative count in the interactive
  field loop.
* External collaborators are modelled at their interface boundary:
  `github.com/hokaccha/go-prettyjson` (`f.jsonFmt.Format`) is an arbitrary
  function `pp : String → Option String` (`none` = formatting error, in which
  case the source keeps the plain bytes); `github.com/norganna/depict` plus
  `encoding/json` serialization of any other value is carried inside the
  value itself (`GoValue.other`); `json.Marshal` of a string/`[]string` is
  modelled concretely (`jsonQuote`).  `mgutz/ansi` colour functions wrap the
  text in the corresponding SGR escape sequences.
* `entry.Time.Format("Jan 02 15:04:05.000")` (Go stdlib) is modelled by
  carrying the already-rendered time text in the entry.
-/

/-- The dynamic (interface-typed) value stored under a field name.
`str` is a Go `string`, `strList` a Go `[]string`; `other ser errT strT`
is any other value, carrying the result of
`json.Marshal(depict.Portray v)` (`none` = marshal error, which in Go
returns `nil` bytes), the text of `v.Error()` when the dynamic type
implements `error`, and the text of `v.String()` when it implements
`fmt.Stringer`.  Go `string` and `[]string` implement neither interface. -/
inductive GoValue where
  | str (s : String)
  | strList (l : List String)
  | other (ser : Option String) (errT : Option String) (strT : Option String)

/-- The logrus levels (`logrus.Level`). -/
inductive Level where
  | panic | fatal | error | warn | info | debug | trace
deriving DecidableEq

/-- The `Formatter` struct (lines 81-107).  `onceDone` is the state of the
embedded `sync.Once`; `isTerminal` and `jsonFmtSet` are the lazily
initialised cached interactivity flag and pretty-printer. -/
structure Formatter where
  levelLetters : Int
  levelUpper : Bool
  levelLower : Bool
  compactFull : Bool
  compactSimple : Bool
  messageAfter : Bool
  compactMessage : Bool
  paragraphAll : Bool
  paragraphBlock : Bool
  ordering : Option (List (String × Int))
  onceDone : Bool
  isTerminal : Bool
  jsonFmtSet : Bool

/-- Constructor `New()` (lines 113-121): remaining fields are Go zero values. -/
def formatterNew : Formatter :=
  { levelLetters := 3, levelUpper := true, levelLower := false
    compactFull := false, compactSimple := true
    messageAfter := true, compactMessage := true
    paragraphAll := false, paragraphBlock := false
    ordering := none, onceDone := false, isTerminal := false, jsonFmtSet := false }

/-- A logrus `Entry` as consumed by `Format`.  `time` is the already
rendered `entry.Time.Format("Jan 02 15:04:05.000")` text; `loggerTerminal`
is `some t` when `entry.Logger.Out` is an `*os.File` whose
`terminal.IsTerminal` probe yields `t`, and `none` when there is no logger
or its output is not an `*os.File` (the `switch` then leaves
`f.isTerminal` untouched). -/
structure Entry where
  time : String
  level : Level
  message : String
  data : List (String × GoValue)
  buffer : Option String
  loggerTerminal : Option Bool

/-- The external pretty-json formatter `f.jsonFmt.Format` (Indent = 1),
`none` modelling a formatting error. -/
abbrev PP := String → Option String

/-- The `ansi.ColorFunc` wrappers: SGR escape, text, reset. -/
def ansiWrap (code : String) (s : String) : String :=
  "\x1b[" ++ code ++ "m" ++ s ++ "\x1b[0m"

def green : String → String := ansiWrap "32"

def yellow : String → String := ansiWrap "33"

def red : String → String := ansiWrap "31"

def blue : String → String := ansiWrap "34"

def cyan : String → String := ansiWrap "36"

def magenta : String → String := ansiWrap "35"

def whiteH : String → String := ansiWrap "95"

def blackH : String → String := ansiWrap "90"

/-- Function `noColour` (lines 31-33). -/
def noColour (s : String) : String := s

/-- Function `braketise` (lines 35-37). -/
def braketise (s : String) : String := "[" ++ s ++ "]"

/-- Byte-wise comparison of one character (UTF-8 order = code-point order). -/
def charCmp (a b : Char) : Ordering :=
  if a.toNat < b.toNat then .lt else if b.toNat < a.toNat then .gt else .eq

/-- Lexicographic comparison of character lists. -/
def listCmp : List Char → List Char → Ordering
  | [], [] => .eq
  | [], _ :: _ => .lt
  | _ :: _, [] => .gt
  | a :: as, b :: bs =>
    match charCmp a b with
    | .eq => listCmp as bs
    | o => o

/-- Go `strings.Compare` (byte-wise lexicographic; UTF-8 is order preserving,
so comparison of the character lists is equivalent). -/
def strCmp (a b : String) : Ordering := listCmp a.data b.data

/-- Go map lookup with the zero value `0` for missing keys. -/
def lookupD (m : List (String × Int)) (k : String) : Int :=
  match m with
  | [] => 0
  | (k', v) :: rest => if k' = k then v else lookupD rest k

/-- Go map assignment `m[k] = v` (overwrites an existing binding). -/
def mapAssign (m : List (String × Int)) (k : String) (v : Int) : List (String × Int) :=
  match m with
  | [] => [(k, v)]
  | (k', v') :: rest => if k' = k then (k, v) :: rest else (k', v') :: mapAssign rest k v

/-- The loop `for i, k := range orders` assigning `pri[k] = i` (lines 282-285). -/
def priOf (orders : List String) : List (String × Int) :=
  (orders.enum).foldl (fun m p => mapAssign m p.2 (Int.ofNat p.1)) []

/-- The final tie break of `sorter.Less` (line 76):
`strings.Compare(a, b) < 1`, i.e. `a ≤ b`. -/
def lexStep (a b : String) : Bool := strCmp a b ≠ .gt

/-- The `s.pri` stage of `sorter.Less` (lines 66-75): a nil map is skipped,
otherwise lower hint index first, missing keys at index `0`. -/
def priStep (p : Option (List (String × Int))) (a b : String) : Bool :=
  match p with
  | some pm =>
    let ap := lookupD pm a
    let bp := lookupD pm b
    if ap > bp then false
    else if ap < bp then true
    else lexStep a b
  | none => lexStep a b

/-- Method `sorter.Less` (lines 53-77): the `s.order` stage (higher `Ordering`
value first, missing keys at `0`), then the `s.pri` stage, then the
lexicographic tie break. -/
def keyLess (o p : Option (List (String × Int))) (a b : String) : Bool :=
  match o with
  | some om =>
    let ai := lookupD om a
    let bi := lookupD om b
    if ai < bi then false
    else if ai > bi then true
    else priStep p a b
  | none => priStep p a b

/-- Method `sorter.Less` as a decidable relation for sorting. -/
def keyR (o p : Option (List (String × Int))) : String → String → Prop :=
  fun a b => keyLess o p a b = true

instance (o p : Option (List (String × Int))) : DecidableRel (keyR o p) :=
  fun a b => inferInstanceAs (Decidable (keyLess o p a b = true))

/-- The `sort.Strings` order: plain lexicographic ascending. -/
def strLeR : String → String → Prop := fun a b => lexStep a b = true

instance : DecidableRel strLeR :=
  fun a b => inferInstanceAs (Decidable (lexStep a b = true))

/-- Lines 277-294: `sort.Strings(keys)` when there is neither an `Ordering`
map nor an `_order` hint, otherwise `sort.Sort` with `sorter.Less`, the
`pri` map being built from the hint only when it is non-empty.
Both Go sorts produce an arrangement sorted under the comparator; since the
comparator is a total, transitive relation that is antisymmetric on the
distinct map keys, that arrangement is unique and insertion sort computes
it. -/
def fieldOrder (ordering : Option (List (String × Int))) (orders : List String)
    (keys : List String) : List String :=
  if ordering = none ∧ orders = [] then
    List.insertionSort strLeR keys
  else
    let pri := if orders.isEmpty then none else some (priOf orders)
    List.insertionSort (keyR ordering pri) keys

/-- Lines 263-275: one pass over `entry.Data`; extracts the `_order` hint
via the unchecked assertion `v.([]string)` (`none` = panic on any other
dynamic type), skips the prefix-consumed keys, collects the remaining keys
and the running maximum of their byte lengths (seeded with 5).  -/
def collectKeys (pfxNonEmpty : Bool) :
    List (String × GoValue) → List String → List String → Nat →
    Option (List String × List String × Nat)
  | [], orders, keys, ks => some (orders, keys, ks)
  | (k, v) :: rest, orders, keys, ks =>
    if k = "_order" then
      match v with
      | .strList l => collectKeys pfxNonEmpty rest l keys ks
      | _ => none
    else if (k = "prefix" ∨ k = "rpc" ∨ k = "user") ∧ pfxNonEmpty then
      collectKeys pfxNonEmpty rest orders keys ks
    else
      collectKeys pfxNonEmpty rest orders (keys ++ [k]) (max ks k.utf8ByteSize)

/-- Lines 296-298: `if keySize > 20 { keySize = 20 }`. -/
def keySizeClamp (ks : Nat) : Nat := if ks > 20 then 20 else ks

/-- Lines 202-204: `if f.LevelLetters <= 0 { f.LevelLetters = 3 }`. -/
def effLetters (n : Int) : Int := if n ≤ 0 then 3 else n

/-- Go byte slicing `s[0:n]` on the ASCII level texts. -/
def strTake (s : String) (n : Nat) : String := ⟨s.data.take n⟩

/-- Lines 206-212: pick the 5-letter form for widths ≥ 5, its first `n`
bytes for widths 4, the first `n` bytes of the 3-letter form otherwise. -/
def levelSlice (n : Int) (lt3 lt5 : String) : String :=
  if n ≥ 5 then lt5
  else if n > 3 then strTake lt5 n.toNat
  else strTake lt3 n.toNat

/-- The displayed abbreviation before case folding, as a function of the
`LevelLetters` value stored before the call (lines 202-212). -/
def levelAbbrev (n : Int) (lt3 lt5 : String) : String :=
  levelSlice (effLetters n) lt3 lt5

/-- Go `strings.ToUpper` restricted to the ASCII level abbreviations. -/
def goToUpper (s : String) : String := ⟨s.data.map Char.toUpper⟩

/-- Lines 214-219.  Note the source calls `strings.ToUpper` in the
`LevelLower` branch as well. -/
def applyLevelCase (upper lower : Bool) (s : String) : String :=
  let s1 := if upper then goToUpper s else s
  if lower then goToUpper s1 else s1

/-- The 3-letter abbreviation of the `switch` on lines 157-182
(default branch shows `Dbg`). -/
def levelText3 : Level → String
  | .info => "Inf"
  | .warn => "Wrn"
  | .error => "Err"
  | .fatal => "Ftl"
  | .panic => "Pnc"
  | _ => "Dbg"

/-- The 5-letter abbreviation of the `switch` on lines 157-182. -/
def levelText5 : Level → String
  | .info => "Info "
  | .warn => "Warn "
  | .error => "Error"
  | .fatal => "Fatal"
  | .panic => "Panic"
  | _ => "Debug"

/-- The level colour of the `switch` on lines 157-182. -/
def levelColourFn : Level → (String → String)
  | .info => green
  | .warn => yellow
  | .error => red
  | .fatal => red
  | .panic => red
  | _ => blue

/-- The displayed, case-folded abbreviation for an already clamped
formatter. -/
def levelAbbrevOf (f : Formatter) (lvl : Level) : String :=
  applyLevelCase f.levelUpper f.levelLower
    (levelSlice f.levelLetters (levelText3 lvl) (levelText5 lvl))

def asString : Option GoValue → Option String
  | some (.str s) => some s
  | _ => none

def lookupData (data : List (String × GoValue)) (k : String) : Option GoValue :=
  match data with
  | [] => none
  | (k', v) :: rest => if k' = k then some v else lookupData rest k

/-- Lines 221-248: the prefix composer.  The `user` part is set whenever
the `user` field holds a string (even the empty one); `rpc` seeds the
origin, a `prefix` field is prepended with a `/` separator when the origin
is non-empty; a non-empty origin is colourised with a trailing `:`; the
combined prefix gets one trailing space when non-empty. -/
def composePfx (userColour prefixColour : String → String)
    (data : List (String × GoValue)) : String :=
  let user :=
    match asString (lookupData data "user") with
    | some v => userColour (v ++ "@")
    | none => ""
  let p0 :=
    match asString (lookupData data "rpc") with
    | some v => v
    | none => ""
  let p1 :=
    match asString (lookupData data "prefix") with
    | some v => (if p0 ≠ "" then v ++ "/" else v) ++ p0
    | none => p0
  let p2 := if p1 ≠ "" then prefixColour (p1 ++ ":") else p1
  let p3 := user ++ p2
  if p3 ≠ "" then p3 ++ " " else p3

/-- The prefix as computed inside `Format`, with the colour functions
selected by interactivity (lines 184-195). -/
def prefixOf (f : Formatter) (e : Entry) : String :=
  composePfx (if f.isTerminal then whiteH else noColour)
    (if f.isTerminal then magenta else noColour) e.data

/-- Lines 250-257: time and level are space-joined; a non-empty prefix
follows after one more space (and itself carries a trailing space). -/
def headerLine (timeColour levelColour : String → String)
    (time levelText pfx : String) : String :=
  timeColour time ++ " " ++ levelColour levelText ++
    (if pfx ≠ "" then " " ++ pfx else "")

/-- The full header written before the optional cuddled message: any prior
buffer content, then lines 250-257. -/
def headerOf (f : Formatter) (e : Entry) : String :=
  e.buffer.getD "" ++
    headerLine (if f.isTerminal then blackH else braketise)
      (if f.isTerminal then levelColourFn e.level else noColour)
      e.time (levelAbbrevOf f e.level) (prefixOf f e)

def hexDigit (n : Nat) : Char :=
  if n < 10 then Char.ofNat (48 + n) else Char.ofNat (87 + n)

/-- Go `encoding/json` escaping of one character (default encoder:
HTML-escapes `<`, `>`, `&`; `\uXXXX` for other control characters). -/
def jsonEscape (c : Char) : List Char :=
  if c = '"' then ['\\', '"']
  else if c = '\\' then ['\\', '\\']
  else if c = '\n' then ['\\', 'n']
  else if c = '\r' then ['\\', 'r']
  else if c = '\t' then ['\\', 't']
  else if c = '<' ∨ c = '>' ∨ c = '&' ∨ c.toNat < 32 then
    ['\\', 'u', '0', '0', hexDigit (c.toNat / 16), hexDigit (c.toNat % 16)]
  else [c]

/-- Go `json.Marshal` of a Go string. -/
def jsonQuote (s : String) : String :=
  ⟨'"' :: (s.data.flatMap jsonEscape ++ ['"'])⟩

/-- The call `json.Marshal(depict.Portray v)` (line 311).  For plain strings and
string slices the portrayal marshals as the value itself; for any other
value the result is carried in the value (`none` = marshal error, which in
Go yields `nil` data bytes). -/
def marshalValue : GoValue → Option String
  | .str s => some (jsonQuote s)
  | .strList l => some ("[" ++ String.intercalate "," (l.map jsonQuote) ++ "]")
  | .other ser _ _ => ser

/-- Probe `v.(error)`: the `Error()` text when the dynamic type implements
`error`. -/
def errTextOf : GoValue → Option String
  | .other _ e _ => e
  | _ => none

/-- Probe `v.(fmt.Stringer)`: the `String()` text when the dynamic type
implements `fmt.Stringer`. -/
def strTextOf : GoValue → Option String
  | .other _ _ st => st
  | _ => none

/-- Line 313: `len(data) == 2 && data[0] == '{'`.  For a 2-byte datum the
first byte is `{` exactly when the first character is (a lone 2-byte
character starts with a byte ≥ 0xC2). -/
def isEmptyObjData (data : String) : Bool :=
  data.utf8ByteSize = 2 && data.data.head? = some '\x7b'

/-- Lines 311-325: serialization plus the empty-object rescue.  When the
marshalled form is the 2-byte `{}` the code probes `error` first and
`fmt.Stringer` only otherwise (`else if`), re-marshalling the probed text
when it is non-empty (`len(str) > 0`, i.e. the text is not `""`). -/
def rescueSerialize (v : GoValue) : Option String :=
  match marshalValue v with
  | none => none
  | some data =>
    if isEmptyObjData data then
      match errTextOf v with
      | some s => if s ≠ "" then some (jsonQuote s) else some data
      | none =>
        match strTextOf v with
        | some s => if s ≠ "" then some (jsonQuote s) else some data
        | none => some data
    else some data

/-- Lines 311-335 without the layout step: serialization, rescue, pretty
printing in interactive mode (errors keep the plain form), and the
`%#v` fallback — on a marshal error `json.Marshal` returned `nil` bytes,
so `fmt.Sprintf("%#v", data)` prints `[]byte(nil)`. -/
def renderValue (pp : PP) (isTerminal : Bool) (v : GoValue) : String :=
  match rescueSerialize v with
  | some data =>
    if isTerminal then
      match pp data with
      | some pretty => pretty
      | none => data
    else data
  | none => "[]byte(nil)"

def isSpaceChar (c : Char) : Bool :=
  c = ' ' ∨ c = '\t' ∨ c = '\n' ∨ c = '\r' ∨ c = '\x0c'

/-- Emit one pending (reversed) whitespace run: a run containing a newline
becomes a single space, any other run is kept. -/
def flushRun (pending : List Char) : List Char :=
  if '\n' ∈ pending then [' '] else pending.reverse

def collapseGo (pending : List Char) : List Char → List Char
  | [] => flushRun pending
  | c :: rest =>
    if isSpaceChar c then collapseGo (c :: pending) rest
    else flushRun pending ++ (c :: collapseGo [] rest)

/-- The call `reCompact.ReplaceAll(data, bSpace)` where
`reCompact = \s*\n\s*` (lines 123, 343).  The leftmost greedy matches of
that pattern are exactly the maximal whitespace runs containing at least
one newline (the match begins where the run begins, backtracks to the last
newline and swallows the rest), so the replacement turns each such run
into one space. -/
def collapseWS (s : String) : String := ⟨collapseGo [] s.data⟩

/-- The call `bytes.Replace(data, bNewline, padding, -1)` (line 345). -/
def padNewlines (s : String) (pad : List Char) : String :=
  ⟨s.data.flatMap (fun c => if c = '\n' then pad else [c])⟩

/-- Line 307: `padding = "\n" + keySize+4 spaces`. -/
def newlinePad (keySize : Nat) : List Char :=
  '\n' :: List.replicate (keySize + 4) ' '

/-- Lines 342-346: the single-line/block layout decision for one rendered
value in interactive mode. -/
def layoutValue (cf cs : Bool) (keySize : Nat) (data : String) : String :=
  if cf || (cs && decide (data.utf8ByteSize < 100)) then collapseWS data
  else padNewlines data (newlinePad keySize)

/-- The call `bytes.Repeat(bSpace, l)`: panics (`none`) on a negative count. -/
def goRepeatSpace (n : Int) : Option String :=
  if n < 0 then none else some ⟨List.replicate n.toNat ' '⟩

/-- Lines 337-350: one field entry.  Interactive mode writes a newline,
the colourised key padded to the key column, then the laid-out value
(`none` when the `bytes.Repeat` count `keySize - len(key)` is negative);
non-interactive mode appends `"  key=value"` with no newline. -/
def fieldChunk (pp : PP) (isTerminal : Bool) (dataColour : String → String)
    (cf cs : Bool) (keySize : Nat) (key : String) (v : GoValue) : Option String :=
  let data := renderValue pp isTerminal v
  if isTerminal then
    match goRepeatSpace ((keySize : Int) - (key.utf8ByteSize : Int)) with
    | none => none
    | some pad =>
      some ("\n" ++ "  " ++ dataColour key ++ ": " ++ pad ++ layoutValue cf cs keySize data)
  else
    some ("  " ++ key ++ "=" ++ data)

/-- Used for `entry.Data[key]` when the key is (impossibly) absent;
`json.Marshal(depict.Portray(nil))` yields `null`. -/
def nilGoValue : GoValue := .other (some "null") none none

/-- The field loop (lines 308-351), concatenating the chunks of the sorted
keys; a panic in any chunk propagates. -/
def fieldsOut (pp : PP) (isTerminal : Bool) (dataColour : String → String)
    (cf cs : Bool) (keySize : Nat) (data : List (String × GoValue)) :
    List String → Option String
  | [] => some ""
  | k :: rest =>
    match fieldChunk pp isTerminal dataColour cf cs keySize k
        ((lookupData data k).getD nilGoValue) with
    | none => none
    | some c =>
      match fieldsOut pp isTerminal dataColour cf cs keySize data rest with
      | none => none
      | some r => some (c ++ r)

/-- Lines 352-361: the closing newline, then the un-cuddled message on its
own indented line followed by the paragraph blank lines. -/
def tailPart (cuddle pAll pBlock : Bool) (msg : String) : String :=
  if !cuddle then "  " ++ msg ++ "\n" ++ (if pAll || pBlock then "\n" else "")
  else if pAll then "\n" else ""

/-- The body of `Format` after the one-time initialisation and the
`LevelLetters` clamp: header, optional cuddled message (line 302-305),
field block, closing newline and tail. -/
def formatBody (pp : PP) (f : Formatter) (e : Entry) : Option String :=
  let pfx := prefixOf f e
  match collectKeys (pfx != "") e.data [] [] 5 with
  | none => none
  | some (orders, keys0, ks0) =>
    let keys := fieldOrder f.ordering orders keys0
    let keySize := keySizeClamp ks0
    let cuddle := !f.messageAfter ||
      (f.compactMessage && keys.isEmpty && decide (e.message.utf8ByteSize < 100))
    match fieldsOut pp f.isTerminal (if f.isTerminal then cyan else noColour)
        f.compactFull f.compactSimple keySize e.data keys with
    | none => none
    | some fs =>
      some (headerOf f e ++ (if cuddle then e.message else "") ++ fs ++ "\n" ++
        tailPart cuddle f.paragraphAll f.paragraphBlock e.message)

/-- Lines 142-151: the `sync.Once` body — probe interactivity from the
logger's output handle and build the pretty printer, exactly once. -/
def onceStep (f : Formatter) (e : Entry) : Formatter :=
  if f.onceDone then f
  else
    { f with onceDone := true, jsonFmtSet := true
             isTerminal :=
               match e.loggerTerminal with
               | some t => t
               | none => f.isTerminal }

/-- Lines 202-204: the in-place `LevelLetters` reset. -/
def clampStep (f : Formatter) : Formatter :=
  if f.levelLetters ≤ 0 then { f with levelLetters := 3 } else f

/-- Method `Formatter.Format` (lines 141-364).  Returns the produced bytes
(`none` = panic) together with the formatter state after the call; both
mutations (the once-block and the `LevelLetters` reset) happen before any
possible panic. -/
def format (pp : PP) (f0 : Formatter) (e : Entry) : Option String × Formatter :=
  let f := clampStep (onceStep f0 e)
  (formatBody pp f e, f)

/-- Modelled from the spec: the literal `clamp(level_letters, 1, 5)` named
by the level-clamp sentence, for comparison with the code's behaviour. -/
def specClamp (x lo hi : Int) : Int := max lo (min hi x)

/-- Modelled from the spec: the amended effective width — 3 for values
≤ 0, otherwise capped at 5. -/
def amendedWidth (n : Int) : Int := if n ≤ 0 then 3 else min n 5

/-- The hint index a key receives inside the sorter when the `pri` map is
built from an order hint: its assigned index, or the Go zero value 0 when
it is absent. -/
def hintIdx (hint : List String) (k : String) : Int := lookupD (priOf hint) k

theorem charCmp_eq_eq {a b : Char} (h : charCmp a b = .eq) : a = b := by
  unfold charCmp at h
  split at h
  · exact absurd h (by simp)
  · split at h
    · exact absurd h (by simp)
    · apply Char.eq_of_val_eq
      apply UInt32.eq_of_toBitVec_eq
      apply BitVec.eq_of_toNat_eq
      simp only [Char.toNat, UInt32.toNat] at *
      omega

theorem listCmp_eq_eq : ∀ {a b : List Char}, listCmp a b = .eq → a = b
  | [], [], _ => rfl
  | [], _ :: _, h => by simp [listCmp] at h
  | _ :: _, [], h => by simp [listCmp] at h
  | a :: as, b :: bs, h => by
    unfold listCmp at h
    cases hc : charCmp a b with
    | eq =>
      rw [hc] at h
      rw [charCmp_eq_eq hc, listCmp_eq_eq h]
    | lt => rw [hc] at h; exact absurd h (by simp)
    | gt => rw [hc] at h; exact absurd h (by simp)

theorem charCmp_gt_iff {a b : Char} : charCmp a b = .gt ↔ charCmp b a = .lt := by
  unfold charCmp
  constructor <;> intro h <;> (repeat' split at h) <;> simp_all <;> omega

theorem listCmp_gt_iff : ∀ {a b : List Char}, listCmp a b = .gt ↔ listCmp b a = .lt
  | [], [] => by simp [listCmp]
  | [], _ :: _ => by simp [listCmp]
  | _ :: _, [] => by simp [listCmp]
  | a :: as, b :: bs => by
    unfold listCmp
    cases hc : charCmp a b with
    | eq =>
      have hb : charCmp b a = .eq := by rw [charCmp_eq_eq hc]; unfold charCmp; simp
      rw [hb]
      exact listCmp_gt_iff
    | lt =>
      have hba : charCmp b a = .gt := charCmp_gt_iff.mpr hc
      rw [hba]; simp
    | gt =>
      have hba : charCmp b a = .lt := charCmp_gt_iff.mp hc
      rw [hba]; simp

theorem charCmp_lt_trans {a b c : Char} (h1 : charCmp a b = .lt) (h2 : charCmp b c = .lt) :
    charCmp a c = .lt := by
  unfold charCmp at *
  (repeat' split at h1) <;> (repeat' split at h2) <;> simp_all <;> omega

theorem listCmp_lt_trans : ∀ {a b c : List Char},
    listCmp a b = .lt → listCmp b c = .lt → listCmp a c = .lt
  | [], _, _ :: _, _, _ => by simp [listCmp]
  | [], _ :: _, [], _, h2 => by simp [listCmp] at h2
  | [], [], [], h1, _ => by simp [listCmp] at h1
  | _ :: _, [], _, h1, _ => by simp [listCmp] at h1
  | _ :: _, _ :: _, [], _, h2 => by simp [listCmp] at h2
  | a :: as, b :: bs, c :: cs, h1, h2 => by
    unfold listCmp at *
    cases hab : charCmp a b with
    | eq =>
      rw [hab] at h1
      cases hbc : charCmp b c with
      | eq =>
        rw [hbc] at h2
        have hac : charCmp a c = .eq := by
          rw [charCmp_eq_eq hab, charCmp_eq_eq hbc]; unfold charCmp; simp
        rw [hac]
        exact listCmp_lt_trans h1 h2
      | lt =>
        have hac : charCmp a c = .lt := by rw [charCmp_eq_eq hab]; exact hbc
        rw [hac]
      | gt => rw [hbc] at h2; exact absurd h2 (by simp)
    | lt =>
      cases hbc : charCmp b c with
      | eq =>
        have hac : charCmp a c = .lt := by rw [← charCmp_eq_eq hbc]; exact hab
        rw [hac]
      | lt => rw [charCmp_lt_trans hab hbc]
      | gt => rw [hbc] at h2; exact absurd h2 (by simp)
    | gt => rw [hab] at h1; exact absurd h1 (by simp)

theorem lexStep_total (a b : String) : lexStep a b = true ∨ lexStep b a = true := by
  unfold lexStep strCmp
  by_cases h : listCmp a.data b.data = .gt
  · right
    have := listCmp_gt_iff.mp h
    simp [this]
  · left; simp [h]

theorem lexStep_trans {a b c : String} (h1 : lexStep a b = true) (h2 : lexStep b c = true) :
    lexStep a c = true := by
  unfold lexStep strCmp at *
  simp only [ne_eq, decide_eq_true_eq] at *
  intro hac
  cases hab : listCmp a.data b.data with
  | gt => exact h1 hab
  | eq => rw [listCmp_eq_eq hab] at hac; exact h2 hac
  | lt =>
    cases hbc : listCmp b.data c.data with
    | gt => exact h2 hbc
    | eq => rw [listCmp_eq_eq hbc] at hab; rw [hab] at hac; simp at hac
    | lt =>
      have := listCmp_lt_trans hab hbc
      rw [this] at hac
      simp at hac

theorem priStep_total (p : Option (List (String × Int))) (a b : String) :
    priStep p a b = true ∨ priStep p b a = true := by
  unfold priStep
  cases p with
  | none => exact lexStep_total a b
  | some pm =>
    simp only
    rcases lt_trichotomy (lookupD pm a) (lookupD pm b) with h | h | h
    · left; rw [if_neg (by omega), if_pos h]
    · rw [if_neg (by omega), if_neg (by omega), if_neg (by omega), if_neg (by omega)]
      exact lexStep_total a b
    · right; rw [if_neg (by omega), if_pos h]

theorem priStep_trans {p : Option (List (String × Int))} {a b c : String}
    (h1 : priStep p a b = true) (h2 : priStep p b c = true) : priStep p a c = true := by
  unfold priStep at *
  cases p with
  | none => exact lexStep_trans h1 h2
  | some pm =>
    simp only at *
    split at h1
    · exact absurd h1 (by simp)
    · split at h2
      · exact absurd h2 (by simp)
      · split at h1 <;> split at h2
        · rw [if_neg (by omega), if_pos (by omega)]
        · rw [if_neg (by omega), if_pos (by omega)]
        · rw [if_neg (by omega), if_pos (by omega)]
        · rw [if_neg (by omega), if_neg (by omega)]
          exact lexStep_trans h1 h2

theorem keyLess_total (o p : Option (List (String × Int))) (a b : String) :
    keyLess o p a b = true ∨ keyLess o p b a = true := by
  unfold keyLess
  cases o with
  | none => exact priStep_total p a b
  | some om =>
    simp only
    rcases lt_trichotomy (lookupD om a) (lookupD om b) with h | h | h
    · right; rw [if_neg (by omega), if_pos (by omega)]
    · rw [if_neg (by omega), if_neg (by omega), if_neg (by omega), if_neg (by omega)]
      exact priStep_total p a b
    · left; rw [if_neg (by omega), if_pos (by omega)]

theorem keyLess_trans {o p : Option (List (String × Int))} {a b c : String}
    (h1 : keyLess o p a b = true) (h2 : keyLess o p b c = true) : keyLess o p a c = true := by
  unfold keyLess at *
  cases o with
  | none => exact priStep_trans h1 h2
  | some om =>
    simp only at *
    split at h1
    · exact absurd h1 (by simp)
    · split at h2
      · exact absurd h2 (by simp)
      · split at h1 <;> split at h2
        · rw [if_neg (by omega), if_pos (by omega)]
        · rw [if_neg (by omega), if_pos (by omega)]
        · rw [if_neg (by omega), if_pos (by omega)]
        · rw [if_neg (by omega), if_neg (by omega)]
          exact priStep_trans h1 h2

theorem keyLess_hint_iff (pm : List (String × Int)) (a b : String) :
    keyLess none (some pm) a b = true ↔
      (lookupD pm a < lookupD pm b ∨ (lookupD pm a = lookupD pm b ∧ strCmp a b ≠ .gt)) := by
  unfold keyLess priStep
  simp only
  rcases lt_trichotomy (lookupD pm a) (lookupD pm b) with h | h | h
  · rw [if_neg (by omega), if_pos h]
    simp only [true_iff]
    exact Or.inl h
  · rw [if_neg (by omega), if_neg (by omega)]
    unfold lexStep
    constructor
    · intro hx
      simp only [decide_eq_true_eq] at hx
      exact Or.inr ⟨h, hx⟩
    · rintro (hx | ⟨-, hx⟩)
      · omega
      · simp only [decide_eq_true_eq]
        exact hx
  · rw [if_pos h]
    constructor
    · intro hx; exact absurd hx (by simp)
    · rintro (hx | ⟨hx, -⟩) <;> omega

/-- C1 (counterexample): with no priority map, the order hint
`["z", "a"]` and the extra field `"m"` absent from the hint, the sorter
yields `m, z, a` — not `z, a, m` as the claim states, because `"m"` gets
the Go zero value `0` as hint index and ties with `"z"`. -/
theorem c1_counterexample :
    fieldOrder none ["z", "a"] ["z", "a", "m"] = ["m", "z", "a"] ∧
    (["m", "z", "a"] : List String) ≠ ["z", "a", "m"] := by
  constructor
  · decide
  · decide

/-- C1 (amended): with no priority map but a non-empty order hint, the
sorted field order is a permutation of the keys that is sorted by hint
index ascending with lexicographic tie break, where a name absent from
the hint receives index `0` — i.e. it ties with the hint's first name and
sorts before all later-hinted names (not after all hinted names); with
hint `["z","a"]` and extra field `"m"` the order is `m, z, a`. -/
theorem c1_amended (hint keys : List String) (h : hint ≠ []) :
    (fieldOrder none hint keys).Perm keys ∧
    (fieldOrder none hint keys).Sorted (fun a b =>
      hintIdx hint a < hintIdx hint b ∨
        (hintIdx hint a = hintIdx hint b ∧ strCmp a b ≠ .gt)) := by
  have hno : ¬ ((none : Option (List (String × Int))) = none ∧ hint = []) := by
    simp [h]
  have hne : hint.isEmpty = false := by
    cases hint with
    | nil => exact absurd rfl h
    | cons x xs => rfl
  unfold fieldOrder
  rw [if_neg hno]
  simp only [hne, Bool.false_eq_true, if_false]
  constructor
  · exact List.perm_insertionSort _ keys
  · haveI : IsTotal String (keyR none (some (priOf hint))) :=
      ⟨fun a b => keyLess_total none (some (priOf hint)) a b⟩
    haveI : IsTrans String (keyR none (some (priOf hint))) :=
      ⟨fun _ _ _ h1 h2 => keyLess_trans h1 h2⟩
    have hs := List.sorted_insertionSort (keyR none (some (priOf hint))) keys
    exact hs.imp (fun hab => (keyLess_hint_iff (priOf hint) _ _).mp hab)

theorem c1_amended_witness :
    (fieldOrder none ["z", "a"] ["z", "a", "m"]).Perm ["z", "a", "m"] ∧
    (fieldOrder none ["z", "a"] ["z", "a", "m"]).Sorted (fun a b =>
      hintIdx ["z", "a"] a < hintIdx ["z", "a"] b ∨
        (hintIdx ["z", "a"] a = hintIdx ["z", "a"] b ∧ strCmp a b ≠ .gt)) :=
  c1_amended ["z", "a"] ["z", "a", "m"] (by decide)

/-- C6 (counterexample): for `level_letters = 0` the code displays the
full 3-letter form (width 3, here `Inf`), while the claim's
`clamp(level_letters, 1, 5)` is 1 — the claim contradicts its own
"values <= 0 behave as 3". -/
theorem c6_counterexample :
    levelAbbrev 0 (levelText3 .info) (levelText5 .info) = "Inf" ∧
    ("Inf" : String).length = 3 ∧ specClamp 0 1 5 = 1 ∧ (3 : Int) ≠ 1 := by
  refine ⟨by decide, by decide, by decide, by decide⟩

/-- C6 (amended): the effective width is 3 for `level_letters ≤ 0` and
`min(level_letters, 5)` otherwise; it always lies in [1,5]; for widths in
[1,3] the abbreviation is the first N bytes of the 3-letter form, for
widths in (3,5] the first N bytes of the 5-letter form, and it is never
empty. -/
theorem c6_amended (n : Int) (lvl : Level) :
    1 ≤ amendedWidth n ∧ amendedWidth n ≤ 5 ∧
    (amendedWidth n ≤ 3 →
      levelAbbrev n (levelText3 lvl) (levelText5 lvl) =
        strTake (levelText3 lvl) (amendedWidth n).toNat) ∧
    (3 < amendedWidth n →
      levelAbbrev n (levelText3 lvl) (levelText5 lvl) =
        strTake (levelText5 lvl) (amendedWidth n).toNat) ∧
    levelAbbrev n (levelText3 lvl) (levelText5 lvl) ≠ "" := by
  have hcases : (n ≤ 0) ∨ (0 < n ∧ n < 5) ∨ (5 ≤ n) := by omega
  rcases hcases with h | ⟨h1, h2⟩ | h
  · have he : effLetters n = 3 := by unfold effLetters; rw [if_pos h]
    have ha : amendedWidth n = 3 := by unfold amendedWidth; rw [if_pos h]
    unfold levelAbbrev
    rw [he, ha]
    cases lvl <;> decide
  · have he : effLetters n = n := by unfold effLetters; rw [if_neg (by omega)]
    have ha : amendedWidth n = n := by
      unfold amendedWidth
      rw [if_neg (by omega)]
      omega
    unfold levelAbbrev
    rw [he, ha]
    interval_cases n <;> (cases lvl <;> decide)
  · have he : effLetters n = n := by unfold effLetters; rw [if_neg (by omega)]
    have ha : amendedWidth n = 5 := by
      unfold amendedWidth
      rw [if_neg (by omega)]
      omega
    have hs : levelSlice n (levelText3 lvl) (levelText5 lvl) = levelText5 lvl := by
      unfold levelSlice
      rw [if_pos (by omega)]
    unfold levelAbbrev
    rw [he, ha, hs]
    cases lvl <;> decide

theorem c6_amended_witness :
    1 ≤ amendedWidth 9 ∧ amendedWidth 9 ≤ 5 ∧
    (amendedWidth 9 ≤ 3 →
      levelAbbrev 9 (levelText3 .warn) (levelText5 .warn) =
        strTake (levelText3 .warn) (amendedWidth 9).toNat) ∧
    (3 < amendedWidth 9 →
      levelAbbrev 9 (levelText3 .warn) (levelText5 .warn) =
        strTake (levelText5 .warn) (amendedWidth 9).toNat) ∧
    levelAbbrev 9 (levelText3 .warn) (levelText5 .warn) ≠ "" :=
  c6_amended 9 .warn

/-- C4 (code bug): with `LevelLower` set and `LevelUpper` unset the code
calls `strings.ToUpper` in the `LevelLower` branch (line 218), so the
displayed abbreviation is `INF`, not the lowercase fold `inf` stated by
the claim and by the struct's own doc comment for `LevelLower`. -/
theorem c4_code_bug :
    applyLevelCase false true "Inf" = "INF" ∧
    (format (fun _ => none)
        { formatterNew with levelUpper := false, levelLower := true
                            messageAfter := false, onceDone := true }
        { time := "t", level := .info, message := "ready", data := []
          buffer := none, loggerTerminal := none }).1 = some "[t] INFready\n" ∧
    ("INF" : String) ≠ "inf" := by
  refine ⟨by decide, by decide, by decide⟩

/-- C2 (code bug): a record storing a non-`[]string` value under the
reserved field name `_order` makes `Format` panic at the unchecked type
assertion `orders = v.([]string)` (line 265) — modelled as `none` — while
the same record with a `[]string` hint returns bytes. -/
theorem c2_code_bug :
    (format (fun s => some s) formatterNew
        { time := "Jan 02 15:04:05.000", level := .info, message := "hello"
          data := [("_order", GoValue.other (some "7") none none)]
          buffer := none, loggerTerminal := some false }).1 = none ∧
    (format (fun s => some s) formatterNew
        { time := "Jan 02 15:04:05.000", level := .info, message := "hello"
          data := [("_order", GoValue.strList ["a"])]
          buffer := none, loggerTerminal := some false }).1.isSome = true := by
  refine ⟨by decide, by decide⟩

/-- C10: every call to `Format` leaves all configuration fields unchanged
except `LevelLetters`, overwritten with 3 exactly when its value was ≤ 0
before the call (values > 5 are not written back), besides the once-only
initialisation of the cached interactivity flag and pretty-printer. -/
theorem c10_frame (pp : PP) (f : Formatter) (e : Entry) :
    (format pp f e).2.levelLetters =
        (if f.levelLetters ≤ 0 then 3 else f.levelLetters) ∧
    (format pp f e).2.levelUpper = f.levelUpper ∧
    (format pp f e).2.levelLower = f.levelLower ∧
    (format pp f e).2.compactFull = f.compactFull ∧
    (format pp f e).2.compactSimple = f.compactSimple ∧
    (format pp f e).2.messageAfter = f.messageAfter ∧
    (format pp f e).2.compactMessage = f.compactMessage ∧
    (format pp f e).2.paragraphAll = f.paragraphAll ∧
    (format pp f e).2.paragraphBlock = f.paragraphBlock ∧
    (format pp f e).2.ordering = f.ordering ∧
    (format pp f e).2.onceDone = true ∧
    (format pp f e).2.jsonFmtSet = (if f.onceDone then f.jsonFmtSet else true) ∧
    (format pp f e).2.isTerminal =
      (if f.onceDone then f.isTerminal
       else
         match e.loggerTerminal with
         | some t => t
         | none => f.isTerminal) := by
  cases hd : f.onceDone <;>
    simp only [format, clampStep, onceStep, hd, Bool.false_eq_true, if_true, if_false] <;>
    split <;>
    simp_all

theorem trailing_space_aux (s : String) :
    (if s ≠ "" then s ++ " " else s) ≠ "" →
      ∃ q, (if s ≠ "" then s ++ " " else s) = q ++ " " := by
  split
  · intro _
    exact ⟨s, rfl⟩
  · next hn =>
    intro h
    exact absurd h hn

theorem composePfx_trailing_space (uc pc : String → String)
    (data : List (String × GoValue)) (h : composePfx uc pc data ≠ "") :
    ∃ q, composePfx uc pc data = q ++ " " := by
  unfold composePfx at h ⊢
  exact trailing_space_aux _ h

/-- C3 (counterexample): a cuddled record with an empty prefix renders the
message directly after the level abbreviation (`INFready`): there is no
space between the level abbreviation and the message. -/
theorem c3_counterexample :
    (format (fun _ => none)
        { formatterNew with messageAfter := false, onceDone := true }
        { time := "t", level := .info, message := "ready", data := []
          buffer := none, loggerTerminal := none }).1 = some "[t] INFready\n" ∧
    ("[t] INFready\n" : String) ≠ "[t] INF ready\n" := by
  refine ⟨by decide, by decide⟩

/-- C3 (amended): the colorized time and level abbreviation are joined by
one space; a non-empty prefix follows after one more space and itself
carries a trailing space, so a cuddled message is space-separated from the
level abbreviation only through a non-empty prefix; with an empty prefix
the cuddled message directly follows the level abbreviation with no
space. -/
theorem c3_amended (tc lc uc pc : String → String) (time lt msg : String)
    (data : List (String × GoValue)) :
    (composePfx uc pc data = "" →
      headerLine tc lc time lt (composePfx uc pc data) ++ msg =
        tc time ++ " " ++ lc lt ++ msg) ∧
    (composePfx uc pc data ≠ "" →
      ∃ q, headerLine tc lc time lt (composePfx uc pc data) ++ msg =
        tc time ++ " " ++ lc lt ++ " " ++ (q ++ " ") ++ msg) := by
  constructor
  · intro h
    unfold headerLine
    rw [h]
    simp
  · intro h
    obtain ⟨q, hq⟩ := composePfx_trailing_space uc pc data h
    refine ⟨q, ?_⟩
    unfold headerLine
    rw [if_pos h, hq]
    simp [String.append_assoc]

theorem c3_amended_witness :
    (composePfx noColour noColour [] = "" →
      headerLine braketise noColour "t" "INF" (composePfx noColour noColour []) ++ "ready" =
        braketise "t" ++ " " ++ noColour "INF" ++ "ready") ∧
    (composePfx noColour noColour [] ≠ "" →
      ∃ q, headerLine braketise noColour "t" "INF" (composePfx noColour noColour []) ++ "ready" =
        braketise "t" ++ " " ++ noColour "INF" ++ " " ++ (q ++ " ") ++ "ready") :=
  c3_amended braketise noColour noColour noColour "t" "INF" "ready" []

/-- C8 (counterexample): a value serializing to the empty object whose
error-style text is empty but whose stringer-style text is `boom` still
renders as the empty object — the probe stops at the error representation
even when its text is empty, so the claim as stated fails on it. -/
theorem c8_counterexample :
    rescueSerialize (GoValue.other (some "\x7b\x7d") (some "") (some "boom")) =
      some "\x7b\x7d" ∧
    renderValue (fun _ => none) false
      (GoValue.other (some "\x7b\x7d") (some "") (some "boom")) = "\x7b\x7d" ∧
    ("\x7b\x7d" : String) ≠ jsonQuote "boom" := by
  refine ⟨by decide, by decide, by decide⟩

/-- C8 (amended): when the canonical serialization is exactly the empty
object, a value exposing a non-empty error-style text renders as the
serialization of that text, and a value exposing no error-style
representation at all and a non-empty stringer-style text renders as the
serialization of that text — the error-style representation is probed
first, and when it is present with empty text the stringer is not
consulted. -/
theorem c8_amended (pp : PP) (v : GoValue) (s : String)
    (h0 : marshalValue v = some "\x7b\x7d") :
    ((errTextOf v = some s ∧ s ≠ "") →
      rescueSerialize v = some (jsonQuote s) ∧ renderValue pp false v = jsonQuote s) ∧
    ((errTextOf v = none ∧ strTextOf v = some s ∧ s ≠ "") →
      rescueSerialize v = some (jsonQuote s) ∧ renderValue pp false v = jsonQuote s) := by
  have hobj : isEmptyObjData "\x7b\x7d" = true := by decide
  constructor
  · rintro ⟨he, hs⟩
    have hr : rescueSerialize v = some (jsonQuote s) := by
      unfold rescueSerialize
      rw [h0]
      simp only [hobj, if_true]
      rw [he]
      simp only [hs, if_pos]
      simp [hs]
    refine ⟨hr, ?_⟩
    unfold renderValue
    rw [hr]
    simp
  · rintro ⟨he, hst, hs⟩
    have hr : rescueSerialize v = some (jsonQuote s) := by
      unfold rescueSerialize
      rw [h0]
      simp only [hobj, if_true]
      rw [he, hst]
      simp [hs]
    refine ⟨hr, ?_⟩
    unfold renderValue
    rw [hr]
    simp

theorem c8_amended_witness :
    marshalValue (GoValue.other (some "\x7b\x7d") (some "boom") none) = some "\x7b\x7d" ∧
    (((errTextOf (GoValue.other (some "\x7b\x7d") (some "boom") none) = some "boom" ∧
        "boom" ≠ "") →
      rescueSerialize (GoValue.other (some "\x7b\x7d") (some "boom") none) =
          some (jsonQuote "boom") ∧
        renderValue (fun _ => none) false (GoValue.other (some "\x7b\x7d") (some "boom") none) =
          jsonQuote "boom") ∧
    ((errTextOf (GoValue.other (some "\x7b\x7d") (some "boom") none) = none ∧
        strTextOf (GoValue.other (some "\x7b\x7d") (some "boom") none) = some "boom" ∧
        "boom" ≠ "") →
      rescueSerialize (GoValue.other (some "\x7b\x7d") (some "boom") none) =
          some (jsonQuote "boom") ∧
        renderValue (fun _ => none) false (GoValue.other (some "\x7b\x7d") (some "boom") none) =
          jsonQuote "boom")) :=
  ⟨by decide, c8_amended (fun _ => none) (GoValue.other (some "\x7b\x7d") (some "boom") none)
    "boom" (by decide)⟩

theorem nl_not_mem_flushRun (p : List Char) : '\n' ∉ flushRun p := by
  unfold flushRun
  split
  · simp
  · next hn => simpa using hn

theorem nl_not_mem_collapseGo : ∀ (l pending : List Char), '\n' ∉ collapseGo pending l
  | [], pending => nl_not_mem_flushRun pending
  | c :: rest, pending => by
    unfold collapseGo
    split
    · exact nl_not_mem_collapseGo rest (c :: pending)
    · next hns =>
      intro hmem
      rcases List.mem_append.mp hmem with h | h
      · exact nl_not_mem_flushRun pending h
      · rcases List.mem_cons.mp h with h | h
        · rw [← h] at hns
          exact hns (by decide)
        · exact nl_not_mem_collapseGo rest [] h

/-- The single-line form produced by the whitespace collapse never
contains a newline. -/
theorem nl_not_mem_collapseWS (s : String) : '\n' ∉ (collapseWS s).data :=
  nl_not_mem_collapseGo s.data []

theorem collectKeys_spec : ∀ (l : List (String × GoValue)) (pfx : Bool)
    (orders acc : List String) (ks : Nat) (o keys : List String) (n : Nat),
    collectKeys pfx l orders acc ks = some (o, keys, n) →
    ∃ tail, keys = acc ++ tail ∧
      n = tail.foldl (fun m key => max m key.utf8ByteSize) ks
  | [], _, orders, acc, ks, o, keys, n, h => by
    unfold collectKeys at h
    simp only [Option.some.injEq, Prod.mk.injEq] at h
    obtain ⟨-, h2, h3⟩ := h
    exact ⟨[], by simp [h2], by simp [h3]⟩
  | (k, v) :: rest, pfx, orders, acc, ks, o, keys, n, h => by
    unfold collectKeys at h
    split at h
    · split at h
      · exact collectKeys_spec rest pfx _ acc ks o keys n h
      · simp at h
    · split at h
      · exact collectKeys_spec rest pfx orders acc ks o keys n h
      · obtain ⟨tail, h1, h2⟩ :=
          collectKeys_spec rest pfx orders (acc ++ [k]) (max ks k.utf8ByteSize) o keys n h
        exact ⟨k :: tail, by simp [h1], by simp [h2, List.foldl]⟩

theorem foldl_max_init : ∀ (l : List Nat) (a : Nat), l.foldl max a = max a (l.foldl max 0)
  | [], a => by simp
  | b :: bs, a => by
    simp only [List.foldl]
    rw [foldl_max_init bs (max a b), foldl_max_init bs (max 0 b)]
    omega

/-- C7: in interactive mode the key column width is
`max 5 (min 20 (longest field-name byte length))`; a rendered value is
collapsed to single-line form exactly when `compact_full` is set or
`compact_simple` is set and the rendered length is below 100, in which
case the result contains no newline at all; otherwise each newline in the
rendered value is replaced by a newline plus `key_width + 4` spaces. -/
theorem c7_layout (cf cs : Bool) (pfx : Bool) (e : List (String × GoValue))
    (orders keys0 : List String) (ks0 : Nat) (data : String)
    (hc : collectKeys pfx e [] [] 5 = some (orders, keys0, ks0)) :
    keySizeClamp ks0 =
      max 5 (min 20 ((keys0.map String.utf8ByteSize).foldl max 0)) ∧
    ((cf = true ∨ (cs = true ∧ data.utf8ByteSize < 100)) →
      layoutValue cf cs (keySizeClamp ks0) data = collapseWS data) ∧
    ((cf = false ∧ (cs = false ∨ 100 ≤ data.utf8ByteSize)) →
      layoutValue cf cs (keySizeClamp ks0) data =
        padNewlines data ('\n' :: List.replicate (keySizeClamp ks0 + 4) ' ')) ∧
    '\n' ∉ (collapseWS data).data := by
  obtain ⟨tail, h1, h2⟩ := collectKeys_spec e pfx [] [] 5 orders keys0 ks0 hc
  simp only [List.nil_append] at h1
  subst h1
  refine ⟨?_, ?_, ?_, nl_not_mem_collapseWS data⟩
  · have hm : keys0.foldl (fun m key => max m key.utf8ByteSize) 5 =
        (keys0.map String.utf8ByteSize).foldl max 5 := by
      rw [List.foldl_map]
    rw [h2, hm, foldl_max_init]
    unfold keySizeClamp
    split <;> omega
  · rintro (h | ⟨h, hlen⟩)
    · unfold layoutValue
      rw [h]
      simp
    · unfold layoutValue
      rw [h]
      simp [hlen]
  · rintro ⟨hcf, h⟩
    unfold layoutValue newlinePad
    rw [hcf]
    rcases h with h | h
    · rw [h]
      simp
    · simp [Nat.not_lt.mpr h]

theorem c7_layout_witness :
    (collectKeys false [("k", GoValue.str "v")] [] [] 5 = some ([], ["k"], 5)) ∧
    (keySizeClamp 5 =
      max 5 (min 20 (((["k"] : List String).map String.utf8ByteSize).foldl max 0)) ∧
    ((true = true ∨ (false = true ∧ ("a\nb" : String).utf8ByteSize < 100)) →
      layoutValue true false (keySizeClamp 5) "a\nb" = collapseWS "a\nb") ∧
    ((true = false ∧ (false = false ∨ 100 ≤ ("a\nb" : String).utf8ByteSize)) →
      layoutValue true false (keySizeClamp 5) "a\nb" =
        padNewlines "a\nb" ('\n' :: List.replicate (keySizeClamp 5 + 4) ' ')) ∧
    '\n' ∉ (collapseWS "a\nb").data) :=
  ⟨by decide, c7_layout true false false [("k", GoValue.str "v")] [] ["k"] 5 "a\nb" (by decide)⟩

/-- C5: a record's message goes on the header line exactly when
`message_after` is false, or `compact_message` is set with an empty
generic field list and a message shorter than 100 bytes; otherwise the
message is emitted indented on its own line after the field block. -/
theorem c5_cuddle (pp : PP) (f0 f : Formatter) (e : Entry)
    (orders keys0 : List String) (ks0 : Nat)
    (hf : clampStep (onceStep f0 e) = f)
    (hc : collectKeys (prefixOf f e != "") e.data [] [] 5 = some (orders, keys0, ks0)) :
    ((f.messageAfter = false ∨
        (f.compactMessage = true ∧ fieldOrder f.ordering orders keys0 = [] ∧
          e.message.utf8ByteSize < 100)) →
      (format pp f0 e).1 =
        (fieldsOut pp f.isTerminal (if f.isTerminal then cyan else noColour)
            f.compactFull f.compactSimple (keySizeClamp ks0) e.data
            (fieldOrder f.ordering orders keys0)).map
          (fun fs => headerOf f e ++ e.message ++ fs ++ "\n" ++
            (if f.paragraphAll then "\n" else ""))) ∧
    (¬ (f.messageAfter = false ∨
        (f.compactMessage = true ∧ fieldOrder f.ordering orders keys0 = [] ∧
          e.message.utf8ByteSize < 100)) →
      (format pp f0 e).1 =
        (fieldsOut pp f.isTerminal (if f.isTerminal then cyan else noColour)
            f.compactFull f.compactSimple (keySizeClamp ks0) e.data
            (fieldOrder f.ordering orders keys0)).map
          (fun fs => headerOf f e ++ fs ++ "\n" ++ "  " ++ e.message ++ "\n" ++
            (if f.paragraphAll || f.paragraphBlock then "\n" else ""))) := by
  have hbody : (format pp f0 e).1 = formatBody pp f e := by rw [← hf]; rfl
  have hbool : (!f.messageAfter ||
      (f.compactMessage && (fieldOrder f.ordering orders keys0).isEmpty &&
        decide (e.message.utf8ByteSize < 100))) = true ↔
      (f.messageAfter = false ∨
        (f.compactMessage = true ∧ fieldOrder f.ordering orders keys0 = [] ∧
          e.message.utf8ByteSize < 100)) := by
    simp [List.isEmpty_iff, and_assoc]
  constructor
  · intro hyp
    have hcud := hbool.mpr hyp
    rw [hbody]
    unfold formatBody
    simp only [hc, hcud, if_true, List.isEmpty_iff]
    cases hfo : fieldsOut pp f.isTerminal (if f.isTerminal then cyan else noColour)
        f.compactFull f.compactSimple (keySizeClamp ks0) e.data
        (fieldOrder f.ordering orders keys0) with
    | none => simp
    | some fs =>
      simp only [Option.map_some']
      unfold tailPart
      simp [String.append_assoc]
  · intro hyp
    have hcud : (!f.messageAfter ||
        (f.compactMessage && (fieldOrder f.ordering orders keys0).isEmpty &&
          decide (e.message.utf8ByteSize < 100))) = false := by
      rcases hb : (!f.messageAfter ||
        (f.compactMessage && (fieldOrder f.ordering orders keys0).isEmpty &&
          decide (e.message.utf8ByteSize < 100))) with _ | _
      · rfl
      · exact absurd (hbool.mp hb) hyp
    rw [hbody]
    unfold formatBody
    simp only [hc, hcud, if_false, Bool.false_eq_true]
    cases hfo : fieldsOut pp f.isTerminal (if f.isTerminal then cyan else noColour)
        f.compactFull f.compactSimple (keySizeClamp ks0) e.data
        (fieldOrder f.ordering orders keys0) with
    | none => simp
    | some fs =>
      simp only [Option.map_some']
      unfold tailPart
      simp [String.append_assoc]
      rw [← String.append_assoc "\n" "  ",
        show ("\n" : String) ++ "  " = "\n  " from rfl]

theorem c5_cuddle_witness :
    (format (fun _ => none) { formatterNew with messageAfter := false, onceDone := true }
        { time := "t", level := .info, message := "ready", data := [], buffer := none
          loggerTerminal := none }).1 =
      some (headerOf { formatterNew with messageAfter := false, onceDone := true }
          { time := "t", level := .info, message := "ready", data := [], buffer := none
            loggerTerminal := none } ++ "ready" ++ "" ++ "\n" ++ "") := by
  have h := (c5_cuddle (fun _ => none)
      { formatterNew with messageAfter := false, onceDone := true }
      { formatterNew with messageAfter := false, onceDone := true }
      { time := "t", level := .info, message := "ready", data := [], buffer := none
        loggerTerminal := none } [] [] 5 rfl rfl).1 (Or.inl rfl)
  rw [h]
  rfl

theorem nl_not_mem_append {a b : String} (ha : '\n' ∉ a.data) (hb : '\n' ∉ b.data) :
    '\n' ∉ (a ++ b).data := by
  rw [String.data_append]
  intro h
  rcases List.mem_append.mp h with h | h
  · exact ha h
  · exact hb h

theorem nl_not_mem_applyLevelCase (up low : Bool) (s : String)
    (h1 : '\n' ∉ s.data) (h2 : ∀ c ∈ s.data, Char.toUpper c ≠ '\n')
    (h3 : ∀ c ∈ s.data, Char.toUpper (Char.toUpper c) ≠ '\n') :
    '\n' ∉ (applyLevelCase up low s).data := by
  unfold applyLevelCase goToUpper
  cases up <;> cases low <;> simp only [Bool.false_eq_true, if_true, if_false] <;>
    intro hm
  · exact h1 hm
  · obtain ⟨c, hc, he⟩ := List.mem_map.mp hm
    exact h2 c hc he
  · obtain ⟨c, hc, he⟩ := List.mem_map.mp hm
    exact h2 c hc he
  · obtain ⟨c2, hc2, he2⟩ := List.mem_map.mp hm
    obtain ⟨c, hc, he⟩ := List.mem_map.mp hc2
    rw [← he] at he2
    exact h3 c hc he2

theorem mem_levelSlice (n : Int) (lt3 lt5 : String) (c : Char)
    (h : c ∈ (levelSlice n lt3 lt5).data) : c ∈ lt3.data ∨ c ∈ lt5.data := by
  unfold levelSlice strTake at h
  split at h
  · exact Or.inr h
  · split at h
    · exact Or.inr (List.mem_of_mem_take h)
    · exact Or.inl (List.mem_of_mem_take h)

theorem nl_not_mem_levelAbbrevOf (f : Formatter) (lvl : Level) :
    '\n' ∉ (levelAbbrevOf f lvl).data := by
  have h3 : ∀ c ∈ (levelText3 lvl).data,
      Char.toUpper c ≠ '\n' ∧ Char.toUpper (Char.toUpper c) ≠ '\n' ∧ c ≠ '\n' := by
    cases lvl <;> decide
  have h5 : ∀ c ∈ (levelText5 lvl).data,
      Char.toUpper c ≠ '\n' ∧ Char.toUpper (Char.toUpper c) ≠ '\n' ∧ c ≠ '\n' := by
    cases lvl <;> decide
  unfold levelAbbrevOf
  apply nl_not_mem_applyLevelCase
  · intro hm
    rcases mem_levelSlice _ _ _ '\n' hm with h | h
    · exact (h3 '\n' h).2.2 rfl
    · exact (h5 '\n' h).2.2 rfl
  · intro c hc
    rcases mem_levelSlice _ _ _ c hc with h | h
    · exact (h3 c h).1
    · exact (h5 c h).1
  · intro c hc
    rcases mem_levelSlice _ _ _ c hc with h | h
    · exact (h3 c h).2.1
    · exact (h5 c h).2.1

theorem fieldChunk_noninteractive (pp : PP) (dc : String → String) (cf cs : Bool)
    (ks : Nat) (key : String) (v : GoValue) :
    fieldChunk pp false dc cf cs ks key v =
      some ("  " ++ key ++ "=" ++ renderValue pp false v) := by
  unfold fieldChunk
  simp

theorem fieldsOut_noninteractive (pp : PP) (dc : String → String) (cf cs : Bool) (ks : Nat)
    (data : List (String × GoValue)) :
    ∀ keys : List String,
    (∀ k ∈ keys, '\n' ∉ k.data) →
    (∀ k ∈ keys, '\n' ∉ (renderValue pp false ((lookupData data k).getD nilGoValue)).data) →
    ∃ fs, fieldsOut pp false dc cf cs ks data keys = some fs ∧ '\n' ∉ fs.data
  | [], _, _ => ⟨"", rfl, by decide⟩
  | k :: rest, hk, hv => by
    obtain ⟨fs, hfs, hnl⟩ := fieldsOut_noninteractive pp dc cf cs ks data rest
      (fun x hx => hk x (List.mem_cons_of_mem _ hx))
      (fun x hx => hv x (List.mem_cons_of_mem _ hx))
    refine ⟨"  " ++ k ++ "=" ++
      renderValue pp false ((lookupData data k).getD nilGoValue) ++ fs, ?_, ?_⟩
    · unfold fieldsOut
      rw [fieldChunk_noninteractive, hfs]
    · refine nl_not_mem_append
        (nl_not_mem_append (nl_not_mem_append (nl_not_mem_append ?_ ?_) ?_) ?_) hnl
      · decide
      · exact hk k (List.mem_cons_self _ _)
      · decide
      · exact hv k (List.mem_cons_self _ _)

/-- C9 (amended): in non-interactive mode each field entry is appended as
`"  key=value"` with no preceding newline, so a cuddled record renders as
a single line terminated by one newline provided `paragraph_all` is unset
(it appends one extra blank line) and the time, message, prefix, keys and
rendered values contain no newline of their own. -/
theorem c9_amended (pp : PP) (f0 f : Formatter) (e : Entry)
    (orders keys0 : List String) (ks0 : Nat)
    (hf : clampStep (onceStep f0 e) = f)
    (hterm : f.isTerminal = false)
    (hc : collectKeys (prefixOf f e != "") e.data [] [] 5 = some (orders, keys0, ks0))
    (hcud : (!f.messageAfter ||
      (f.compactMessage && (fieldOrder f.ordering orders keys0).isEmpty &&
        decide (e.message.utf8ByteSize < 100))) = true)
    (hpa : f.paragraphAll = false)
    (hbuf : e.buffer = none)
    (htime : '\n' ∉ e.time.data)
    (hmsg : '\n' ∉ e.message.data)
    (hpfx : '\n' ∉ (prefixOf f e).data)
    (hkeys : ∀ k ∈ fieldOrder f.ordering orders keys0, '\n' ∉ k.data)
    (hvals : ∀ k ∈ fieldOrder f.ordering orders keys0,
      '\n' ∉ (renderValue pp false ((lookupData e.data k).getD nilGoValue)).data) :
    (∀ (dc : String → String) (cf cs : Bool) (ks : Nat) (key : String) (v : GoValue),
      fieldChunk pp false dc cf cs ks key v =
        some ("  " ++ key ++ "=" ++ renderValue pp false v)) ∧
    ∃ line, (format pp f0 e).1 = some (line ++ "\n") ∧ '\n' ∉ line.data := by
  refine ⟨fun dc cf cs ks key v => fieldChunk_noninteractive pp dc cf cs ks key v, ?_⟩
  obtain ⟨fs, hfs, hfsnl⟩ := fieldsOut_noninteractive pp noColour f.compactFull f.compactSimple
    (keySizeClamp ks0) e.data (fieldOrder f.ordering orders keys0) hkeys hvals
  have hbody : (format pp f0 e).1 = formatBody pp f e := by rw [← hf]; rfl
  have hh : '\n' ∉ (headerOf f e).data := by
    unfold headerOf headerLine braketise noColour
    rw [hbuf, hterm]
    simp only [Bool.false_eq_true, if_false, Option.getD_none]
    refine nl_not_mem_append ?_
      (nl_not_mem_append (nl_not_mem_append (nl_not_mem_append ?_ ?_) ?_) ?_)
    · decide
    · exact nl_not_mem_append (nl_not_mem_append (by decide) htime) (by decide)
    · decide
    · exact nl_not_mem_levelAbbrevOf f e.level
    · split
      · exact nl_not_mem_append (by decide) hpfx
      · decide
  refine ⟨headerOf f e ++ e.message ++ fs, ?_, ?_⟩
  · rw [hbody]
    unfold formatBody
    simp only [hc, hterm, hcud, Bool.false_eq_true, if_false, if_true]
    rw [hfs]
    simp only [tailPart, hpa, Bool.not_true, Bool.false_eq_true, if_false, Bool.or_false]
    simp [String.append_assoc]
  · exact nl_not_mem_append (nl_not_mem_append hh hmsg) hfsnl

theorem c9_amended_witness :
    (∀ (dc : String → String) (cf cs : Bool) (ks : Nat) (key : String) (v : GoValue),
      fieldChunk (fun _ => none) false dc cf cs ks key v =
        some ("  " ++ key ++ "=" ++ renderValue (fun _ => none) false v)) ∧
    ∃ line, (format (fun _ => none)
        { formatterNew with messageAfter := false, onceDone := true }
        { time := "t", level := .info, message := "ready"
          data := [("k", GoValue.str "v")], buffer := none, loggerTerminal := none }).1 =
      some (line ++ "\n") ∧ '\n' ∉ line.data :=
  c9_amended (fun _ => none)
    { formatterNew with messageAfter := false, onceDone := true }
    { formatterNew with messageAfter := false, onceDone := true }
    { time := "t", level := .info, message := "ready"
      data := [("k", GoValue.str "v")], buffer := none, loggerTerminal := none }
    [] ["k"] 5 rfl rfl (by decide) (by decide) rfl rfl (by decide) (by decide) (by decide)
    (by decide) (by decide)

/-- C9 (counterexample): with `paragraph_all` set, a cuddled
non-interactive record ends with two newlines, not one — the record does
not render as a single line terminated by one newline. -/
theorem c9_counterexample :
    (format (fun _ => none)
        { formatterNew with messageAfter := false, paragraphAll := true, onceDone := true }
        { time := "t", level := .info, message := "ready", data := []
          buffer := none, loggerTerminal := none }).1 = some "[t] INFready\n\n" ∧
    ("[t] INFready\n\n" : String).data.count '\n' = 2 ∧ (2 : Nat) ≠ 1 := by
  refine ⟨by decide, by decide, by decide⟩
